import Mathlib

/-!
Bounded-buffer producer/consumer programs of `src/threads/prod-cons*.c`.

Each C file is embedded as an interleaving transition system: a state holds
the file's global variables, the locals and program counter of every thread,
the console output, and per thread four history counters that only record
which statements the thread has completed.  One step lets one thread execute
one statement.

* `sema_down` is enabled only when the semaphore count is positive and then
  decrements it; `sema_up` increments the count.
* `lock_acquire` is enabled only when the lock is free and records the
  acquiring thread as holder; `lock_release` frees the lock.
* `printf` appends one line to the console.
* `timer_msleep` is a step without effect on the state.
* The priorities passed to `thread_create` do not restrict the interleavings:
  every thread whose next statement is enabled may take the next step.

All integers of the programs stay in `[0, 2401]`, so `int` is modelled by
`Nat`; `%` is only applied to non-negative operands.
-/

/-- Program counter of a producer or consumer thread: the statement the thread
executes next.

* `start`  the start-up semaphore operation before the loop (prod-cons-sema.c)
* `loop`   the test `i < N` of the `for` loop
* `down`   `sema_down(&empty)` (producer) or `sema_down(&full)` (consumer)
* `calc`   `item = i * i` (producer only)
* `acq`    `lock_acquire(&buffer_lock)`
* `op`     `buffer[bufin] = item` (producer) or `item = buffer[bufout]` (consumer)
* `adv`    `bufin = (bufin + 1) % BUFSIZE` or `bufout = (bufout + 1) % BUFSIZE`
* `rel`    `lock_release(&buffer_lock)`
* `print`  the `printf` call
* `up`     `sema_up(&full)` (producer) or `sema_up(&empty)` (consumer)
* `sleep`  `timer_msleep(10)` (prod-cons3.c)
* `next`   the `i++` of the `for` loop
* `done`   the function has returned -/
inductive PC where
  | start | loop | down | calc | acq | op | adv | rel | print | up | sleep | next | done
  deriving DecidableEq, Repr

/-- One line of console output. -/
inductive Line where
  | put (item : Nat)
  | get (item : Nat)
  deriving DecidableEq, Repr

/-- A thread: its program counter, its locals `i` and `item` (the `for`
initialiser `i = 0` is folded into thread creation; `item` is never read
before it is assigned), and four history counters of the statements it has
completed: `downs` (`sema_down` in the loop), `ops` (buffer writes or reads),
`prints` (`printf`), `ups` (`sema_up` in the loop).  No statement reads a
history counter. -/
structure Thread where
  pc : PC
  i : Nat
  item : Nat
  downs : Nat
  ops : Nat
  prints : Nat
  ups : Nat
  deriving DecidableEq, Repr

/-- A freshly created thread whose first statement is at `pc`. -/
def Thread.new (pc : PC) : Thread :=
  { pc := pc, i := 0, item := 0, downs := 0, ops := 0, prints := 0, ups := 0 }

/-- Number of "p: put item" lines in a log. -/
def putLines (out : List Line) : Nat :=
  out.countP (fun l => match l with | .put _ => true | .get _ => false)

/-- Number of "c: get item" lines in a log. -/
def getLines (out : List Line) : Nat :=
  out.countP (fun l => match l with | .put _ => false | .get _ => true)

/-- The values of the "c: get item" lines of a log, in order. -/
def gotItems (out : List Line) : List Nat :=
  out.filterMap (fun l => match l with | .put _ => none | .get v => some v)

/-- The values of the "p: put item" lines of a log, in order. -/
def putItems (out : List Line) : List Nat :=
  out.filterMap (fun l => match l with | .put v => some v | .get _ => none)

/-- The first `n` squares `0, 1, 4, ...`. -/
def squares (n : Nat) : List Nat := (List.range n).map (fun k => k * k)

/-- 1 when the `sema_down` of the current iteration is completed. -/
def PC.downDone : PC → Nat
  | .calc | .acq | .op | .adv | .rel | .print | .up | .sleep | .next => 1
  | _ => 0

/-- 1 when the buffer write or read of the current iteration is completed. -/
def PC.opDone : PC → Nat
  | .adv | .rel | .print | .up | .sleep | .next => 1
  | _ => 0

/-- 1 when the index update of the current iteration is completed. -/
def PC.advDone : PC → Nat
  | .rel | .print | .up | .sleep | .next => 1
  | _ => 0

/-- 1 when the `printf` of the current iteration is completed. -/
def PC.printDone : PC → Nat
  | .up | .sleep | .next => 1
  | _ => 0

/-- 1 when the `sema_up` of the current iteration is completed. -/
def PC.upDone : PC → Nat
  | .sleep | .next => 1
  | _ => 0

/-- The thread is between its `lock_acquire` and its `lock_release`. -/
def PC.inCS : PC → Bool
  | .op | .adv | .rel => true
  | _ => false

/-- The thread is inside the loop body (or at `i++`). -/
def PC.inBody : PC → Bool
  | .down | .calc | .acq | .op | .adv | .rel | .print | .up | .sleep | .next => true
  | _ => false

/-- The thread's local `item` holds the value of the current iteration
(producer: after `item = i * i`). -/
def PC.itemSetP : PC → Bool
  | .acq | .op | .adv | .rel | .print | .up | .sleep | .next => true
  | _ => false

/-- 1 when the start-up semaphore operation before the loop is completed. -/
def PC.startDone : PC → Nat
  | .start => 0
  | _ => 1

/-- Position of a statement in program order. -/
def PC.rank : PC → Nat
  | .start => 0 | .loop => 1 | .down => 2 | .calc => 3 | .acq => 4 | .op => 5 | .adv => 6
  | .rel => 7 | .print => 8 | .up => 9 | .sleep => 10 | .next => 11 | .done => 12

/-- Upper bound on the number of statements a thread with an `n`-iteration loop
can still execute. -/
def Thread.fuel (n : Nat) (t : Thread) : Nat := (n - t.i) * 11 + (12 - t.pc.rank)

attribute [simp] PC.downDone.eq_1 PC.downDone.eq_2 PC.downDone.eq_3 PC.downDone.eq_4 PC.downDone.eq_5 PC.downDone.eq_6 PC.downDone.eq_7 PC.downDone.eq_8 PC.downDone.eq_9 PC.downDone.eq_10
attribute [simp] PC.opDone.eq_1 PC.opDone.eq_2 PC.opDone.eq_3 PC.opDone.eq_4 PC.opDone.eq_5 PC.opDone.eq_6 PC.opDone.eq_7
attribute [simp] PC.advDone.eq_1 PC.advDone.eq_2 PC.advDone.eq_3 PC.advDone.eq_4 PC.advDone.eq_5 PC.advDone.eq_6
attribute [simp] PC.printDone.eq_1 PC.printDone.eq_2 PC.printDone.eq_3 PC.printDone.eq_4
attribute [simp] PC.upDone.eq_1 PC.upDone.eq_2 PC.upDone.eq_3
attribute [simp] PC.inCS.eq_1 PC.inCS.eq_2 PC.inCS.eq_3 PC.inCS.eq_4
attribute [simp] PC.inBody.eq_1 PC.inBody.eq_2 PC.inBody.eq_3 PC.inBody.eq_4 PC.inBody.eq_5 PC.inBody.eq_6 PC.inBody.eq_7 PC.inBody.eq_8 PC.inBody.eq_9 PC.inBody.eq_10 PC.inBody.eq_11
attribute [simp] PC.itemSetP.eq_1 PC.itemSetP.eq_2 PC.itemSetP.eq_3 PC.itemSetP.eq_4 PC.itemSetP.eq_5 PC.itemSetP.eq_6 PC.itemSetP.eq_7 PC.itemSetP.eq_8 PC.itemSetP.eq_9
attribute [simp] PC.startDone.eq_1 PC.startDone.eq_2
attribute [simp] PC.rank.eq_1 PC.rank.eq_2 PC.rank.eq_3 PC.rank.eq_4 PC.rank.eq_5 PC.rank.eq_6 PC.rank.eq_7 PC.rank.eq_8 PC.rank.eq_9 PC.rank.eq_10 PC.rank.eq_11 PC.rank.eq_12 PC.rank.eq_13

/-- Relation between a thread's loop counter, program counter and history
counters, for a loop of `n` iterations. -/
structure Thread.Ok (n : Nat) (t : Thread) : Prop where
  downs : t.downs = t.i + t.pc.downDone
  ops : t.ops = t.i + t.pc.opDone
  prints : t.prints = t.i + t.pc.printDone
  ups : t.ups = t.i + t.pc.upDone
  le : t.i ≤ n
  body : t.pc.inBody = true → t.i < n
  fin : t.pc = .done → t.i = n
  start : t.pc = .start → t.i = 0

/-! ## prod-cons1.c -/

namespace ProdCons1

def N : Nat := 10
def BUFSIZE : Nat := 3

/-- The two threads created by `test_prod_cons`. -/
inductive Tid where
  | Producer | Consumer
  deriving DecidableEq, Repr

/-- Globals of prod-cons1.c, the two threads and the console. -/
structure State where
  buffer : List Nat
  bufin : Nat
  bufout : Nat
  empty : Nat
  full : Nat
  buffer_lock : Option Tid
  prod : Thread
  cons : Thread
  out : List Line
  deriving DecidableEq, Repr

/-- State after `test_prod_cons` (lines 51-57): `buffer`, `bufin`, `bufout`
are zero-initialised statics, the lock is free, `full = 0`, `empty = BUFSIZE`,
both threads are about to enter their loop. -/
def test_prod_cons : State :=
  { buffer := List.replicate BUFSIZE 0, bufin := 0, bufout := 0,
    empty := BUFSIZE, full := 0, buffer_lock := none,
    prod := Thread.new .loop, cons := Thread.new .loop, out := [] }

/-- One statement of `producer` (lines 22-35); `none` when the statement is
blocked or the thread has returned. -/
def producer (s : State) : Option State :=
  let t := s.prod
  match t.pc with
  | .loop => some { s with prod := { t with pc := if t.i < N then .down else .done } }
  | .down =>
    if 0 < s.empty then
      some { s with empty := s.empty - 1, prod := { t with pc := .calc, downs := t.downs + 1 } }
    else none
  | .calc => some { s with prod := { t with pc := .acq, item := t.i * t.i } }
  | .acq =>
    if s.buffer_lock = none then
      some { s with buffer_lock := some .Producer, prod := { t with pc := .op } }
    else none
  | .op =>
    some { s with buffer := s.buffer.set s.bufin t.item,
                  prod := { t with pc := .adv, ops := t.ops + 1 } }
  | .adv => some { s with bufin := (s.bufin + 1) % BUFSIZE, prod := { t with pc := .rel } }
  | .rel => some { s with buffer_lock := none, prod := { t with pc := .print } }
  | .print =>
    some { s with out := s.out ++ [Line.put t.item],
                  prod := { t with pc := .up, prints := t.prints + 1 } }
  | .up => some { s with full := s.full + 1, prod := { t with pc := .next, ups := t.ups + 1 } }
  | .next => some { s with prod := { t with pc := .loop, i := t.i + 1 } }
  | _ => none

/-- One statement of `consumer` (lines 37-49). -/
def consumer (s : State) : Option State :=
  let t := s.cons
  match t.pc with
  | .loop => some { s with cons := { t with pc := if t.i < N then .down else .done } }
  | .down =>
    if 0 < s.full then
      some { s with full := s.full - 1, cons := { t with pc := .acq, downs := t.downs + 1 } }
    else none
  | .acq =>
    if s.buffer_lock = none then
      some { s with buffer_lock := some .Consumer, cons := { t with pc := .op } }
    else none
  | .op =>
    some { s with cons := { t with pc := .adv, item := s.buffer.getD s.bufout 0,
                                    ops := t.ops + 1 } }
  | .adv => some { s with bufout := (s.bufout + 1) % BUFSIZE, cons := { t with pc := .rel } }
  | .rel => some { s with buffer_lock := none, cons := { t with pc := .print } }
  | .print =>
    some { s with out := s.out ++ [Line.get t.item],
                  cons := { t with pc := .up, prints := t.prints + 1 } }
  | .up => some { s with empty := s.empty + 1, cons := { t with pc := .next, ups := t.ups + 1 } }
  | .next => some { s with cons := { t with pc := .loop, i := t.i + 1 } }
  | _ => none

/-- Thread `t` executes its next statement. -/
def step (t : Tid) (s : State) : Option State :=
  match t with
  | .Producer => producer s
  | .Consumer => consumer s

/-- States reachable from the state left by `test_prod_cons`. -/
inductive Reachable : State → Prop where
  | init : Reachable test_prod_cons
  | step {s s' : State} (t : Tid) : Reachable s → step t s = some s' → Reachable s'

/-- Run a schedule; a thread scheduled while blocked or returned does nothing. -/
def exec : List Tid → State → State
  | [], s => s
  | t :: ts, s =>
    match step t s with
    | some s' => exec ts s'
    | none => exec ts s

/-- Completed buffer writes. -/
def enq (s : State) : Nat := s.prod.ops

/-- Completed buffer reads. -/
def deq (s : State) : Nat := s.cons.ops

/-- Both threads have left their loops. -/
def finished (s : State) : Prop := s.prod.pc = .done ∧ s.cons.pc = .done

instance (s : State) : Decidable (finished s) := by unfold finished; infer_instance

/-- Control invariant of prod-cons1.c: counters, semaphores, lock and index
positions. -/
structure Ctl (s : State) : Prop where
  prod : s.prod.Ok N
  cons : s.cons.Ok N
  empty : s.empty + s.prod.downs = BUFSIZE + s.cons.ups
  full : s.full + s.cons.downs = s.prod.ups
  lockP : s.prod.pc.inCS = true ↔ s.buffer_lock = some .Producer
  lockC : s.cons.pc.inCS = true ↔ s.buffer_lock = some .Consumer
  bufin : s.bufin = (s.prod.i + s.prod.pc.advDone) % BUFSIZE
  bufout : s.bufout = (s.cons.i + s.cons.pc.advDone) % BUFSIZE

/-- Data invariant of prod-cons1.c: buffer contents, locals and console. -/
structure Dat (s : State) : Prop where
  len : s.buffer.length = BUFSIZE
  slots : ∀ k, s.cons.ops ≤ k → k < s.prod.ops → s.buffer[k % BUFSIZE]? = some (k * k)
  itemP : s.prod.pc.itemSetP = true → s.prod.item = s.prod.i * s.prod.i
  itemC : s.cons.pc.opDone = 1 → s.cons.item = s.cons.i * s.cons.i
  outP : putItems s.out = squares s.prod.prints
  outC : gotItems s.out = squares s.cons.prints
  nP : putLines s.out = s.prod.prints
  nC : getLines s.out = s.cons.prints

/-- Tasks mid-transfer in the sense of the specification: `sema_down` of the
current iteration completed, buffer write or read not yet completed. -/
def inFlight (s : State) : Nat :=
  (s.prod.pc.downDone - s.prod.pc.opDone) + (s.cons.pc.downDone - s.cons.pc.opDone)

/-- Tasks holding a slot token: `sema_down` of the current iteration completed,
`sema_up` not yet completed. -/
def holding (s : State) : Nat :=
  (s.prod.pc.downDone - s.prod.pc.upDone) + (s.cons.pc.downDone - s.cons.pc.upDone)

/-- A schedule that alternates ten producer steps with ten consumer steps. -/
def alternate (rounds : Nat) : List Tid :=
  (List.replicate rounds (List.replicate 10 Tid.Producer ++ List.replicate 10 Tid.Consumer)).flatten

/-- The log respects the buffer bounds: gets never overtake puts, puts never
lead gets by more than `BUFSIZE`. -/
def Paced (out : List Line) : Prop :=
  getLines out ≤ putLines out ∧ putLines out ≤ getLines out + BUFSIZE

end ProdCons1

/-! ## prod-cons-sema.c -/

namespace ProdConsSema

def BUFSIZE : Nat := 5
def N : Nat := 10

/-- The two threads created by `test_prod_cons`. -/
inductive Tid where
  | Producer | Consumer
  deriving DecidableEq, Repr

/-- Globals of prod-cons-sema.c, the two threads and the console. -/
structure State where
  buffer : List Nat
  bufin : Nat
  bufout : Nat
  empty : Nat
  full : Nat
  start_consumer : Nat
  buffer_lock : Option Tid
  prod : Thread
  cons : Thread
  out : List Line
  deriving DecidableEq, Repr

/-- State after `test_prod_cons` (lines 53-61): the lock is free, `full = 0`,
`empty = BUFSIZE`, `start_consumer = 0`, both threads are about to execute
their first statement. -/
def test_prod_cons : State :=
  { buffer := List.replicate BUFSIZE 0, bufin := 0, bufout := 0,
    empty := BUFSIZE, full := 0, start_consumer := 0, buffer_lock := none,
    prod := Thread.new .start, cons := Thread.new .start, out := [] }

/-- One statement of `producer` (lines 20-35); `none` when the statement is
blocked or the thread has returned. -/
def producer (s : State) : Option State :=
  let t := s.prod
  match t.pc with
  | .start =>
    if 0 < s.start_consumer then
      some { s with start_consumer := s.start_consumer - 1, prod := { t with pc := .loop } }
    else none
  | .loop => some { s with prod := { t with pc := if t.i < N then .down else .done } }
  | .down =>
    if 0 < s.empty then
      some { s with empty := s.empty - 1, prod := { t with pc := .calc, downs := t.downs + 1 } }
    else none
  | .calc => some { s with prod := { t with pc := .acq, item := t.i * t.i } }
  | .acq =>
    if s.buffer_lock = none then
      some { s with buffer_lock := some .Producer, prod := { t with pc := .op } }
    else none
  | .op =>
    some { s with buffer := s.buffer.set s.bufin t.item,
                  prod := { t with pc := .adv, ops := t.ops + 1 } }
  | .adv => some { s with bufin := (s.bufin + 1) % BUFSIZE, prod := { t with pc := .rel } }
  | .rel => some { s with buffer_lock := none, prod := { t with pc := .print } }
  | .print =>
    some { s with out := s.out ++ [Line.put t.item],
                  prod := { t with pc := .up, prints := t.prints + 1 } }
  | .up => some { s with full := s.full + 1, prod := { t with pc := .next, ups := t.ups + 1 } }
  | .next => some { s with prod := { t with pc := .loop, i := t.i + 1 } }
  | _ => none

/-- One statement of `consumer` (lines 37-51). -/
def consumer (s : State) : Option State :=
  let t := s.cons
  match t.pc with
  | .start => some { s with start_consumer := s.start_consumer + 1, cons := { t with pc := .loop } }
  | .loop => some { s with cons := { t with pc := if t.i < N then .down else .done } }
  | .down =>
    if 0 < s.full then
      some { s with full := s.full - 1, cons := { t with pc := .acq, downs := t.downs + 1 } }
    else none
  | .acq =>
    if s.buffer_lock = none then
      some { s with buffer_lock := some .Consumer, cons := { t with pc := .op } }
    else none
  | .op =>
    some { s with cons := { t with pc := .adv, item := s.buffer.getD s.bufout 0,
                                    ops := t.ops + 1 } }
  | .adv => some { s with bufout := (s.bufout + 1) % BUFSIZE, cons := { t with pc := .rel } }
  | .rel => some { s with buffer_lock := none, cons := { t with pc := .print } }
  | .print =>
    some { s with out := s.out ++ [Line.get t.item],
                  cons := { t with pc := .up, prints := t.prints + 1 } }
  | .up => some { s with empty := s.empty + 1, cons := { t with pc := .next, ups := t.ups + 1 } }
  | .next => some { s with cons := { t with pc := .loop, i := t.i + 1 } }
  | _ => none

/-- Thread `t` executes its next statement. -/
def step (t : Tid) (s : State) : Option State :=
  match t with
  | .Producer => producer s
  | .Consumer => consumer s

/-- States reachable from the state left by `test_prod_cons`. -/
inductive Reachable : State → Prop where
  | init : Reachable test_prod_cons
  | step {s s' : State} (t : Tid) : Reachable s → step t s = some s' → Reachable s'

/-- Run a schedule; a thread scheduled while blocked or returned does nothing. -/
def exec : List Tid → State → State
  | [], s => s
  | t :: ts, s =>
    match step t s with
    | some s' => exec ts s'
    | none => exec ts s

/-- Completed buffer writes. -/
def enq (s : State) : Nat := s.prod.ops

/-- Completed buffer reads. -/
def deq (s : State) : Nat := s.cons.ops

/-- Logically occupied slots: completed writes minus completed reads. -/
def occupied (s : State) : Int := (enq s : Int) - (deq s : Int)

/-- Both threads have left their loops. -/
def finished (s : State) : Prop := s.prod.pc = .done ∧ s.cons.pc = .done

instance (s : State) : Decidable (finished s) := by unfold finished; infer_instance

/-- Upper bound on the number of statements still to be executed. -/
def fuel (s : State) : Nat := s.prod.fuel N + s.cons.fuel N

/-- A schedule that alternates eleven consumer steps with eleven producer steps. -/
def alternate (rounds : Nat) : List Tid :=
  (List.replicate rounds (List.replicate 11 Tid.Consumer ++ List.replicate 11 Tid.Producer)).flatten

/-- Control invariant of prod-cons-sema.c: counters, semaphores, lock and
program counters. -/
structure Ctl (s : State) : Prop where
  prod : s.prod.Ok N
  cons : s.cons.Ok N
  empty : s.empty + s.prod.downs = BUFSIZE + s.cons.ups
  full : s.full + s.cons.downs = s.prod.ups
  start : s.start_consumer + s.prod.pc.startDone = s.cons.pc.startDone
  lockP : s.prod.pc.inCS = true ↔ s.buffer_lock = some .Producer
  lockC : s.cons.pc.inCS = true ↔ s.buffer_lock = some .Consumer
  pcP : s.prod.pc ≠ .sleep
  pcC : s.cons.pc ≠ .sleep ∧ s.cons.pc ≠ .calc

end ProdConsSema

/-! ## prod-cons3.c -/

namespace ProdCons3

def N : Nat := 50
def BUFSIZE : Nat := 3

/-- The four threads created by `test_prod_cons`. -/
inductive Tid where
  | Producer1 | Consumer1 | Producer2 | Consumer2
  deriving DecidableEq, Repr

/-- Globals of prod-cons3.c, the four threads and the console. -/
structure State where
  buffer : List Nat
  bufin : Nat
  bufout : Nat
  empty : Nat
  full : Nat
  buffer_lock : Option Tid
  p1 : Thread
  c1 : Thread
  p2 : Thread
  c2 : Thread
  out : List Line
  deriving DecidableEq, Repr

/-- Locals and history of thread `t`. -/
def State.thread (s : State) : Tid → Thread
  | .Producer1 => s.p1
  | .Consumer1 => s.c1
  | .Producer2 => s.p2
  | .Consumer2 => s.c2

/-- Replace the locals and history of thread `t`. -/
def State.setThread (s : State) (t : Tid) (th : Thread) : State :=
  match t with
  | .Producer1 => { s with p1 := th }
  | .Consumer1 => { s with c1 := th }
  | .Producer2 => { s with p2 := th }
  | .Consumer2 => { s with c2 := th }

/-- State after `test_prod_cons` (lines 46-56): the lock is free, `full = 2`,
`empty = BUFSIZE`, `buffer`, `bufin`, `bufout` are zero-initialised statics,
the four threads are about to enter their loop. -/
def test_prod_cons : State :=
  { buffer := List.replicate BUFSIZE 0, bufin := 0, bufout := 0,
    empty := BUFSIZE, full := 2, buffer_lock := none,
    p1 := Thread.new .loop, c1 := Thread.new .loop,
    p2 := Thread.new .loop, c2 := Thread.new .loop, out := [] }

/-- One statement of `producer` (lines 15-29) executed by thread `me`; `none`
when the statement is blocked or the thread has returned. -/
def producer (me : Tid) (s : State) : Option State :=
  let t := s.thread me
  match t.pc with
  | .loop => some (s.setThread me { t with pc := if t.i < N then .down else .done })
  | .down =>
    if 0 < s.empty then
      some ({ s with empty := s.empty - 1 }.setThread me
        { t with pc := .calc, downs := t.downs + 1 })
    else none
  | .calc => some (s.setThread me { t with pc := .acq, item := t.i * t.i })
  | .acq =>
    if s.buffer_lock = none then
      some ({ s with buffer_lock := some me }.setThread me { t with pc := .op })
    else none
  | .op =>
    some ({ s with buffer := s.buffer.set s.bufin t.item }.setThread me
      { t with pc := .adv, ops := t.ops + 1 })
  | .adv => some ({ s with bufin := (s.bufin + 1) % BUFSIZE }.setThread me { t with pc := .rel })
  | .rel => some ({ s with buffer_lock := none }.setThread me { t with pc := .print })
  | .print =>
    some ({ s with out := s.out ++ [Line.put t.item] }.setThread me
      { t with pc := .up, prints := t.prints + 1 })
  | .up => some ({ s with full := s.full + 1 }.setThread me
      { t with pc := .sleep, ups := t.ups + 1 })
  | .sleep => some (s.setThread me { t with pc := .next })
  | .next => some (s.setThread me { t with pc := .loop, i := t.i + 1 })
  | _ => none

/-- One statement of `consumer` (lines 31-44) executed by thread `me`. -/
def consumer (me : Tid) (s : State) : Option State :=
  let t := s.thread me
  match t.pc with
  | .loop => some (s.setThread me { t with pc := if t.i < N then .down else .done })
  | .down =>
    if 0 < s.full then
      some ({ s with full := s.full - 1 }.setThread me
        { t with pc := .acq, downs := t.downs + 1 })
    else none
  | .acq =>
    if s.buffer_lock = none then
      some ({ s with buffer_lock := some me }.setThread me { t with pc := .op })
    else none
  | .op =>
    some (s.setThread me
      { t with pc := .adv, item := s.buffer.getD s.bufout 0, ops := t.ops + 1 })
  | .adv => some ({ s with bufout := (s.bufout + 1) % BUFSIZE }.setThread me { t with pc := .rel })
  | .rel => some ({ s with buffer_lock := none }.setThread me { t with pc := .print })
  | .print =>
    some ({ s with out := s.out ++ [Line.get t.item] }.setThread me
      { t with pc := .up, prints := t.prints + 1 })
  | .up => some ({ s with empty := s.empty + 1 }.setThread me
      { t with pc := .sleep, ups := t.ups + 1 })
  | .sleep => some (s.setThread me { t with pc := .next })
  | .next => some (s.setThread me { t with pc := .loop, i := t.i + 1 })
  | _ => none

/-- Thread `t` executes its next statement: "Producer1" and "Producer2" run
`producer`, "Consumer1" and "Consumer2" run `consumer`. -/
def step (t : Tid) (s : State) : Option State :=
  match t with
  | .Producer1 => producer .Producer1 s
  | .Consumer1 => consumer .Consumer1 s
  | .Producer2 => producer .Producer2 s
  | .Consumer2 => consumer .Consumer2 s

/-- States reachable from the state left by `test_prod_cons`. -/
inductive Reachable : State → Prop where
  | init : Reachable test_prod_cons
  | step {s s' : State} (t : Tid) : Reachable s → step t s = some s' → Reachable s'

/-- Run a schedule; a thread scheduled while blocked or returned does nothing. -/
def exec : List Tid → State → State
  | [], s => s
  | t :: ts, s =>
    match step t s with
    | some s' => exec ts s'
    | none => exec ts s

/-- Completed buffer writes of both producers. -/
def enq (s : State) : Nat := s.p1.ops + s.p2.ops

/-- Completed buffer reads of both consumers. -/
def deq (s : State) : Nat := s.c1.ops + s.c2.ops

/-- Logically occupied slots: completed writes minus completed reads. -/
def occupied (s : State) : Int := (enq s : Int) - (deq s : Int)

/-- All four threads have left their loops. -/
def finished (s : State) : Prop :=
  s.p1.pc = .done ∧ s.c1.pc = .done ∧ s.p2.pc = .done ∧ s.c2.pc = .done

instance (s : State) : Decidable (finished s) := by unfold finished; infer_instance

/-- A schedule that gives the four threads, in the given order, eleven steps
each, `rounds` times. -/
def rotate (order : List Tid) (rounds : Nat) : List Tid :=
  (List.replicate rounds (order.map (fun t => List.replicate 11 t)).flatten).flatten

/-- Round-robin schedule starting with "Producer1"; it runs all four threads
to completion. -/
def scheduleA : List Tid := rotate [.Producer1, .Consumer1, .Producer2, .Consumer2] 52

/-- Round-robin schedule starting with the consumers; it runs all four threads
to completion. -/
def scheduleB : List Tid := rotate [.Consumer2, .Consumer1, .Producer2, .Producer1] 82

/-- Control invariant of prod-cons3.c: counters, semaphores, lock and index
positions. -/
structure Ctl (s : State) : Prop where
  p1 : s.p1.Ok N
  c1 : s.c1.Ok N
  p2 : s.p2.Ok N
  c2 : s.c2.Ok N
  empty : s.empty + s.p1.downs + s.p2.downs = BUFSIZE + s.c1.ups + s.c2.ups
  full : s.full + s.c1.downs + s.c2.downs = 2 + s.p1.ups + s.p2.ups
  lock : ∀ t, (s.thread t).pc.inCS = true ↔ s.buffer_lock = some t
  bufin : s.bufin = (s.p1.i + s.p1.pc.advDone + s.p2.i + s.p2.pc.advDone) % BUFSIZE
  bufout : s.bufout = (s.c1.i + s.c1.pc.advDone + s.c2.i + s.c2.pc.advDone) % BUFSIZE

end ProdCons3

/-! ## Shared lemmas -/

@[simp] theorem putLines_nil : putLines [] = 0 := rfl
@[simp] theorem getLines_nil : getLines [] = 0 := rfl
@[simp] theorem putItems_nil : putItems [] = [] := rfl
@[simp] theorem gotItems_nil : gotItems [] = [] := rfl

@[simp] theorem putLines_put (out : List Line) (v : Nat) :
    putLines (out ++ [Line.put v]) = putLines out + 1 := by
  simp [putLines, List.countP_append]

@[simp] theorem putLines_get (out : List Line) (v : Nat) :
    putLines (out ++ [Line.get v]) = putLines out := by
  simp [putLines, List.countP_append]

@[simp] theorem getLines_put (out : List Line) (v : Nat) :
    getLines (out ++ [Line.put v]) = getLines out := by
  simp [getLines, List.countP_append]

@[simp] theorem getLines_get (out : List Line) (v : Nat) :
    getLines (out ++ [Line.get v]) = getLines out + 1 := by
  simp [getLines, List.countP_append]

@[simp] theorem putItems_put (out : List Line) (v : Nat) :
    putItems (out ++ [Line.put v]) = putItems out ++ [v] := by
  simp [putItems, List.filterMap_append]

@[simp] theorem putItems_get (out : List Line) (v : Nat) :
    putItems (out ++ [Line.get v]) = putItems out := by
  simp [putItems, List.filterMap_append]

@[simp] theorem gotItems_put (out : List Line) (v : Nat) :
    gotItems (out ++ [Line.put v]) = gotItems out := by
  simp [gotItems, List.filterMap_append]

@[simp] theorem gotItems_get (out : List Line) (v : Nat) :
    gotItems (out ++ [Line.get v]) = gotItems out ++ [v] := by
  simp [gotItems, List.filterMap_append]

theorem squares_succ (n : Nat) : squares (n + 1) = squares n ++ [n * n] := by
  simp [squares, List.range_succ]

@[simp] theorem squares_length (n : Nat) : (squares n).length = n := by
  simp [squares]

theorem getD_set_self (l : List Nat) (i v : Nat) (h : i < l.length) :
    (l.set i v).getD i 0 = v := by
  simp [List.getD_eq_getElem?_getD, h]

theorem getD_set_ne (l : List Nat) (i j v : Nat) (h : i ≠ j) :
    (l.set i v).getD j 0 = l.getD j 0 := by
  simp [List.getD_eq_getElem?_getD, List.getElem?_set_ne h]

theorem PC.upDone_le_printDone (pc : PC) : pc.upDone ≤ pc.printDone := by
  cases pc <;> decide

theorem PC.printDone_le_opDone (pc : PC) : pc.printDone ≤ pc.opDone := by
  cases pc <;> decide

theorem PC.opDone_le_downDone (pc : PC) : pc.opDone ≤ pc.downDone := by
  cases pc <;> decide

theorem PC.downDone_le_one (pc : PC) : pc.downDone ≤ 1 := by
  cases pc <;> decide

/-- Within a thread the history counters are ordered
`ups ≤ prints ≤ ops ≤ downs ≤ ups + 1`. -/
theorem Thread.Ok.order {n : Nat} {t : Thread} (h : t.Ok n) :
    t.ups ≤ t.prints ∧ t.prints ≤ t.ops ∧ t.ops ≤ t.downs ∧ t.downs ≤ t.ups + 1 := by
  have h1 := PC.upDone_le_printDone t.pc
  have h2 := PC.printDone_le_opDone t.pc
  have h3 := PC.opDone_le_downDone t.pc
  have h4 := PC.downDone_le_one t.pc
  have := h.downs; have := h.ops; have := h.prints; have := h.ups
  omega

namespace ProdCons1

theorem ctl_init : Ctl test_prod_cons := by
  constructor <;> first | decide | (constructor <;> decide)

set_option maxHeartbeats 1000000 in
theorem ctl_producer {s s' : State} (h : Ctl s) (hs : producer s = some s') : Ctl s' := by
  obtain ⟨buffer, bufin, bufout, empty, full, lock, ⟨ppc, pi, pitem, pd, po, pp, pu⟩, c, out⟩ := s
  obtain ⟨⟨p1, p2, p3, p4, p5, p6, p7, p8⟩, hc, he, hf, hlp, hlc, hbi, hbo⟩ := h
  simp only [N, BUFSIZE] at *
  cases ppc <;> simp [producer] at hs <;> (first | subst hs | obtain ⟨hg, rfl⟩ := hs) <;>
    simp at p1 p2 p3 p4 p6 p7 p8 hlp hbi hlc <;>
    refine ⟨⟨?_, ?_, ?_, ?_, ?_, ?_, ?_, ?_⟩, hc, ?_, ?_, ?_, ?_, ?_, ?_⟩
  all_goals (try simp)
  all_goals first
    | assumption
    | omega
    | (simp only [N, BUFSIZE]; omega)
    | (simp only [N, BUFSIZE]; split <;> simp <;> assumption)
    | simp_all

set_option maxHeartbeats 1000000 in
theorem ctl_consumer {s s' : State} (h : Ctl s) (hs : consumer s = some s') : Ctl s' := by
  obtain ⟨buffer, bufin, bufout, empty, full, lock, p, ⟨cpc, ci, citem, cd, co, cp, cu⟩, out⟩ := s
  obtain ⟨hp, ⟨c1, c2, c3, c4, c5, c6, c7, c8⟩, he, hf, hlp, hlc, hbi, hbo⟩ := h
  simp only [N, BUFSIZE] at *
  cases cpc <;> simp [consumer] at hs <;> (first | subst hs | obtain ⟨hg, rfl⟩ := hs) <;>
    simp at c1 c2 c3 c4 c6 c7 c8 hlp hbo hlc <;>
    refine ⟨hp, ⟨?_, ?_, ?_, ?_, ?_, ?_, ?_, ?_⟩, ?_, ?_, ?_, ?_, ?_, ?_⟩
  all_goals (try simp)
  all_goals first
    | assumption
    | omega
    | (simp only [N, BUFSIZE]; omega)
    | (simp only [N, BUFSIZE]; split <;> simp <;> assumption)
    | simp_all

theorem ctl_reachable {s : State} (h : Reachable s) : Ctl s := by
  induction h with
  | init => exact ctl_init
  | step t _ hs ih =>
    cases t
    · exact ctl_producer ih hs
    · exact ctl_consumer ih hs

theorem dat_init : Dat test_prod_cons := by
  constructor <;> simp [test_prod_cons, Thread.new, BUFSIZE, squares]

set_option maxHeartbeats 1000000 in
theorem dat_producer {s s' : State} (hctl : Ctl s) (h : Dat s) (hs : producer s = some s') :
    Dat s' := by
  have hco := hctl.cons.order
  obtain ⟨buffer, bufin, bufout, empty, full, lock, ⟨ppc, pi, pitem, pd, po, pp, pu⟩, c, out⟩ := s
  obtain ⟨⟨p1, p2, p3, p4, p5, p6, p7, p8⟩, hc, he, hf, hlp, hlc, hbi, hbo⟩ := hctl
  obtain ⟨d1, d2, d3, d4, d5, d6, d7, d8⟩ := h
  simp only [N, BUFSIZE] at *
  cases ppc <;> simp [producer] at hs <;> (first | subst hs | obtain ⟨hg, rfl⟩ := hs) <;>
    simp at p1 p2 p3 p4 p6 p7 p8 hbi d3 <;>
    refine ⟨?_, ?_, ?_, ?_, ?_, ?_, ?_, ?_⟩
  all_goals (try simp)
  all_goals first
    | assumption
    | omega
    | (simp only [N, BUFSIZE]; split <;> simp)
    | (intro k h1 h2
       simp only [BUFSIZE]
       rcases Nat.lt_succ_iff_lt_or_eq.mp h2 with h3 | h3
       · rw [List.getElem?_set_ne (by omega)]; exact d2 k h1 h3
       · subst h3
         rw [hbi, ← p2, List.getElem?_set_self (by omega)]; simp [d3, p2])
    | simp [squares_succ, d5, d3, p3]

set_option maxHeartbeats 1000000 in
theorem dat_consumer {s s' : State} (hctl : Ctl s) (h : Dat s) (hs : consumer s = some s') :
    Dat s' := by
  have hpo := hctl.prod.order
  obtain ⟨buffer, bufin, bufout, empty, full, lock, p, ⟨cpc, ci, citem, cd, co, cp, cu⟩, out⟩ := s
  obtain ⟨hp, ⟨c1, c2, c3, c4, c5, c6, c7, c8⟩, he, hf, hlp, hlc, hbi, hbo⟩ := hctl
  obtain ⟨d1, d2, d3, d4, d5, d6, d7, d8⟩ := h
  simp only [N, BUFSIZE] at *
  cases cpc <;> simp [consumer] at hs <;> (first | subst hs | obtain ⟨hg, rfl⟩ := hs) <;>
    simp at c1 c2 c3 c4 c6 c7 c8 hbo d4 <;>
    refine ⟨?_, ?_, ?_, ?_, ?_, ?_, ?_, ?_⟩
  all_goals (try simp)
  all_goals first
    | assumption
    | omega
    | (simp only [N, BUFSIZE]; split <;> simp)
    | (intro k h1 h2; exact d2 k (by omega) h2)
    | (rw [hbo, d2 ci (by omega) (by omega)]; rfl)
    | simp [squares_succ, d6, d4, c3]

theorem dat_reachable {s : State} (h : Reachable s) : Dat s := by
  induction h with
  | init => exact dat_init
  | step t hr hs ih =>
    cases t
    · exact dat_producer (ctl_reachable hr) ih hs
    · exact dat_consumer (ctl_reachable hr) ih hs

theorem reachable_exec (sched : List Tid) {s : State} (h : Reachable s) :
    Reachable (exec sched s) := by
  induction sched generalizing s with
  | nil => exact h
  | cons t ts ih =>
    cases hs : step t s with
    | none => simpa [exec, hs] using ih h
    | some s' => simpa [exec, hs] using ih (Reachable.step t h hs)

theorem squares_getElem? (n i : Nat) (h : i < n) : (squares n)[i]? = some (i * i) := by
  simp [squares, List.getElem?_map, List.getElem?_range h]

/-- C1: in every reachable state of prod-cons1.c in which producer and consumer
have both left their loops, the consumer's log lines report exactly the ten
items 0, 1, 4, ..., 81 in this order (the i-th item is i*i), ten writes and ten
reads have completed, and the occupied count is 0. -/
theorem scenarioA_delivery (s : State) (hr : Reachable s) (hf : finished s) :
    gotItems s.out = [0, 1, 4, 9, 16, 25, 36, 49, 64, 81] ∧
    (gotItems s.out).length = 10 ∧
    (∀ i, i < 10 → (gotItems s.out)[i]? = some (i * i)) ∧
    enq s = 10 ∧ deq s = 10 ∧ (enq s : Int) - (deq s : Int) = 0 := by
  have hc := ctl_reachable hr
  have hd := dat_reachable hr
  obtain ⟨hp, hq⟩ := hf
  have e1 : s.cons.prints = 10 := by
    have := hc.cons.prints; have := hc.cons.fin hq; simp [hq, N] at *; omega
  have e2 : s.cons.ops = 10 := by
    have := hc.cons.ops; have := hc.cons.fin hq; simp [hq, N] at *; omega
  have e3 : s.prod.ops = 10 := by
    have := hc.prod.ops; have := hc.prod.fin hp; simp [hp, N] at *; omega
  have e4 : gotItems s.out = squares 10 := by rw [hd.outC, e1]
  refine ⟨by rw [e4]; decide, by rw [e4]; simp, ?_, e3, e2, by simp [enq, deq, e2, e3]⟩
  intro i hi
  rw [e4]; exact squares_getElem? 10 i hi

set_option maxRecDepth 1000000 in
theorem scenarioA_delivery_witness :
    Reachable (exec (alternate 11) test_prod_cons) ∧
    finished (exec (alternate 11) test_prod_cons) ∧
    gotItems (exec (alternate 11) test_prod_cons).out = [0, 1, 4, 9, 16, 25, 36, 49, 64, 81] ∧
    enq (exec (alternate 11) test_prod_cons) = 10 :=
  ⟨reachable_exec _ Reachable.init, by decide,
    (scenarioA_delivery _ (reachable_exec _ Reachable.init) (by decide)).1,
    (scenarioA_delivery _ (reachable_exec _ Reachable.init) (by decide)).2.2.2.1⟩

/-- C3 (as stated) fails: after the producer has executed `i < N`,
`sema_down(&empty)`, `item = i*i`, `lock_acquire` and `buffer[bufin] = item`,
`empty` is 2, `full` is 0 and no task is between its `sema_down` and its buffer
operation, so the sum is 2, not `BUFSIZE`. -/
theorem inFlight_sum_counterexample :
    Reachable (exec (List.replicate 5 Tid.Producer) test_prod_cons) ∧
    (exec (List.replicate 5 Tid.Producer) test_prod_cons).prod.pc = PC.adv ∧
    (exec (List.replicate 5 Tid.Producer) test_prod_cons).empty = 2 ∧
    (exec (List.replicate 5 Tid.Producer) test_prod_cons).full = 0 ∧
    inFlight (exec (List.replicate 5 Tid.Producer) test_prod_cons) = 0 ∧
    (exec (List.replicate 5 Tid.Producer) test_prod_cons).empty
      + (exec (List.replicate 5 Tid.Producer) test_prod_cons).full
      + inFlight (exec (List.replicate 5 Tid.Producer) test_prod_cons) ≠ BUFSIZE :=
  ⟨reachable_exec _ Reachable.init, by decide, by decide, by decide, by decide, by decide⟩

/-- C3 (amended): in every reachable state of prod-cons1.c,
`empty + full + holding = BUFSIZE`, where `holding` counts the tasks that have
completed the `sema_down` of their current iteration and not yet its
`sema_up`. -/
theorem token_conservation (s : State) (hr : Reachable s) :
    s.empty + s.full + holding s = BUFSIZE := by
  have hc := ctl_reachable hr
  have h1 := hc.prod.downs; have h2 := hc.prod.ups
  have h3 := hc.cons.downs; have h4 := hc.cons.ups
  have h5 := hc.empty; have h6 := hc.full
  have h7 := PC.upDone_le_printDone s.prod.pc
  have h8 := PC.printDone_le_opDone s.prod.pc
  have h9 := PC.opDone_le_downDone s.prod.pc
  have h10 := PC.upDone_le_printDone s.cons.pc
  have h11 := PC.printDone_le_opDone s.cons.pc
  have h12 := PC.opDone_le_downDone s.cons.pc
  simp only [holding, BUFSIZE] at *
  omega

theorem token_conservation_witness :
    Reachable (exec (List.replicate 5 Tid.Producer) test_prod_cons) ∧
    (exec (List.replicate 5 Tid.Producer) test_prod_cons).empty
      + (exec (List.replicate 5 Tid.Producer) test_prod_cons).full
      + holding (exec (List.replicate 5 Tid.Producer) test_prod_cons) = BUFSIZE :=
  ⟨reachable_exec _ Reachable.init, token_conservation _ (reachable_exec _ Reachable.init)⟩

/-- A step leaves the console unchanged or appends one line. -/
theorem out_step {s s' : State} (t : Tid) (hs : step t s = some s') :
    s'.out = s.out ∨ ∃ l, s'.out = s.out ++ [l] := by
  obtain ⟨buffer, bufin, bufout, empty, full, lock, ⟨ppc, pi, pitem, pd, po, pp, pu⟩,
    ⟨cpc, ci, citem, cd, co, cp, cu⟩, out⟩ := s
  cases t
  · cases ppc <;> simp [step, producer] at hs <;>
      (first | subst hs | obtain ⟨hg, rfl⟩ := hs) <;> simp
  · cases cpc <;> simp [step, consumer] at hs <;>
      (first | subst hs | obtain ⟨hg, rfl⟩ := hs) <;> simp

/-- A step that changes the console is taken by a thread that does not hold
`buffer_lock`. -/
theorem print_unlocked {s s' : State} (t : Tid) (hc : Ctl s) (hs : step t s = some s')
    (ho : s'.out ≠ s.out) : s.buffer_lock ≠ some t := by
  obtain ⟨buffer, bufin, bufout, empty, full, lock, ⟨ppc, pi, pitem, pd, po, pp, pu⟩,
    ⟨cpc, ci, citem, cd, co, cp, cu⟩, out⟩ := s
  have hlp := hc.lockP
  have hlc := hc.lockC
  cases t
  · cases ppc <;> simp [step, producer] at hs <;>
      (first | subst hs | obtain ⟨hg, rfl⟩ := hs) <;> simp at ho ⊢
    simpa using hlp
  · cases cpc <;> simp [step, consumer] at hs <;>
      (first | subst hs | obtain ⟨hg, rfl⟩ := hs) <;> simp at ho ⊢
    simpa using hlc

theorem paced_reachable {s : State} (hr : Reachable s) : Paced s.out := by
  have hc := ctl_reachable hr
  have hd := dat_reachable hr
  have h1 := hc.prod.order; have h2 := hc.cons.order
  have h3 := hc.empty; have h4 := hc.full
  have h5 := hd.nP; have h6 := hd.nC
  simp only [Paced, BUFSIZE] at *
  omega

theorem paced_prefixes {s : State} (hr : Reachable s) :
    ∀ pre, pre <+: s.out → Paced pre := by
  induction hr with
  | init =>
    intro pre hp
    have : pre = [] := by simpa [test_prod_cons] using hp
    subst this; simp [Paced]
  | step t hr hs ih =>
    intro pre hp
    rcases out_step t hs with h | ⟨l, h⟩
    · rw [h] at hp; exact ih pre hp
    · rw [h, List.prefix_concat_iff] at hp
      rcases hp with hp | hp
      · have := paced_reachable (Reachable.step t hr hs)
        rw [h] at this; rw [hp]; exact this
      · exact ih pre hp

/-- C9 (as stated) fails: after eight producer statements the line
"p: put item 0" of iteration 0 is on the console while the producer has not
yet executed the `sema_up(&full)` of that iteration (`full` is still 0 and the
producer is about to execute the `sema_up`). -/
theorem print_before_up_counterexample :
    Reachable (exec (List.replicate 8 Tid.Producer) test_prod_cons) ∧
    (exec (List.replicate 8 Tid.Producer) test_prod_cons).out = [Line.put 0] ∧
    (exec (List.replicate 8 Tid.Producer) test_prod_cons).prod.pc = PC.up ∧
    (exec (List.replicate 8 Tid.Producer) test_prod_cons).prod.i = 0 ∧
    (exec (List.replicate 8 Tid.Producer) test_prod_cons).prod.prints = 1 ∧
    (exec (List.replicate 8 Tid.Producer) test_prod_cons).prod.ups = 0 ∧
    (exec (List.replicate 8 Tid.Producer) test_prod_cons).full = 0 :=
  ⟨reachable_exec _ Reachable.init, by decide, by decide, by decide, by decide, by decide,
    by decide⟩

/-- C9 (amended): in every reachable state of prod-cons1.c each task has
executed, per iteration, `sema_down`, then the buffer operation, then `printf`,
then `sema_up` (its history counters satisfy
`ups ≤ prints ≤ ops ≤ downs ≤ ups + 1`); the buffer operation is executed by
the holder of `buffer_lock`, and a step that emits a log line is taken by a
task that does not hold `buffer_lock`. -/
theorem iteration_order (s : State) (hr : Reachable s) :
    (s.prod.ups ≤ s.prod.prints ∧ s.prod.prints ≤ s.prod.ops ∧ s.prod.ops ≤ s.prod.downs ∧
      s.prod.downs ≤ s.prod.ups + 1) ∧
    (s.cons.ups ≤ s.cons.prints ∧ s.cons.prints ≤ s.cons.ops ∧ s.cons.ops ≤ s.cons.downs ∧
      s.cons.downs ≤ s.cons.ups + 1) ∧
    (s.prod.pc = PC.op → s.buffer_lock = some Tid.Producer) ∧
    (s.cons.pc = PC.op → s.buffer_lock = some Tid.Consumer) ∧
    (∀ t s', step t s = some s' → s'.out ≠ s.out → s.buffer_lock ≠ some t) := by
  have hc := ctl_reachable hr
  refine ⟨hc.prod.order, hc.cons.order, ?_, ?_, ?_⟩
  · intro h; have := hc.lockP; rw [h] at this; simpa using this
  · intro h; have := hc.lockC; rw [h] at this; simpa using this
  · intro t s' hs ho; exact print_unlocked t hc hs ho

theorem iteration_order_witness :
    Reachable (exec (List.replicate 7 Tid.Producer) test_prod_cons) ∧
    (exec (List.replicate 7 Tid.Producer) test_prod_cons).prod.pc = PC.print ∧
    (exec (List.replicate 7 Tid.Producer) test_prod_cons).prod.ups
      ≤ (exec (List.replicate 7 Tid.Producer) test_prod_cons).prod.prints :=
  ⟨reachable_exec _ Reachable.init, by decide,
    (iteration_order _ (reachable_exec _ Reachable.init)).1.1⟩

/-- C10: in every reachable state of prod-cons1.c the console holds at most as
many "c: get item" lines as "p: put item" lines and at most `BUFSIZE = 3` more
put lines than get lines, and the same holds for every prefix of the console:
the k-th get line comes after the k-th put line and the (k+3)-th put line
after the k-th get line. -/
theorem log_order (s : State) (hr : Reachable s) :
    getLines s.out ≤ putLines s.out ∧ putLines s.out ≤ getLines s.out + 3 ∧
    ∀ pre, pre <+: s.out → getLines pre ≤ putLines pre ∧ putLines pre ≤ getLines pre + 3 :=
  ⟨(paced_reachable hr).1, (paced_reachable hr).2, fun pre hp => paced_prefixes hr pre hp⟩

set_option maxRecDepth 1000000 in
theorem log_order_witness :
    Reachable (exec (alternate 3) test_prod_cons) ∧
    putLines (exec (alternate 3) test_prod_cons).out = 3 ∧
    getLines (exec (alternate 3) test_prod_cons).out
      ≤ putLines (exec (alternate 3) test_prod_cons).out :=
  ⟨reachable_exec _ Reachable.init, by decide, (log_order _ (reachable_exec _ Reachable.init)).1⟩

end ProdCons1

namespace ProdConsSema

theorem sema_ctl_init : Ctl test_prod_cons := by
  constructor <;> first | decide | (constructor <;> decide)

set_option maxHeartbeats 1000000 in
theorem sema_ctl_producer {s s' : State} (h : Ctl s) (hs : producer s = some s') : Ctl s' := by
  obtain ⟨buffer, bufin, bufout, empty, full, sc, lock, ⟨ppc, pi, pitem, pd, po, pp, pu⟩, c, out⟩ := s
  obtain ⟨⟨p1, p2, p3, p4, p5, p6, p7, p8⟩, hc, he, hf, hst, hlp, hlc, hvp, hvc⟩ := h
  simp only [N, BUFSIZE] at *
  cases ppc <;> simp [producer] at hs <;> (first | subst hs | obtain ⟨hg, rfl⟩ := hs) <;>
    simp at p1 p2 p3 p4 p6 p7 p8 hlp hlc hst <;>
    refine ⟨⟨?_, ?_, ?_, ?_, ?_, ?_, ?_, ?_⟩, hc, ?_, ?_, ?_, ?_, ?_, ?_, hvc⟩
  all_goals (try simp)
  all_goals first
    | assumption
    | omega
    | (simp only [N, BUFSIZE]; omega)
    | (simp only [N, BUFSIZE]; split <;> simp <;> assumption)
    | simp_all

set_option maxHeartbeats 1000000 in
theorem sema_ctl_consumer {s s' : State} (h : Ctl s) (hs : consumer s = some s') : Ctl s' := by
  obtain ⟨buffer, bufin, bufout, empty, full, sc, lock, p, ⟨cpc, ci, citem, cd, co, cp, cu⟩, out⟩ := s
  obtain ⟨hp, ⟨c1, c2, c3, c4, c5, c6, c7, c8⟩, he, hf, hst, hlp, hlc, hvp, hvc⟩ := h
  simp only [N, BUFSIZE] at *
  cases cpc <;> simp [consumer] at hs <;> (first | subst hs | obtain ⟨hg, rfl⟩ := hs) <;>
    simp at c1 c2 c3 c4 c6 c7 c8 hlp hlc hst <;>
    refine ⟨hp, ⟨?_, ?_, ?_, ?_, ?_, ?_, ?_, ?_⟩, ?_, ?_, ?_, ?_, ?_, hvp, ?_⟩
  all_goals (try simp)
  all_goals first
    | assumption
    | omega
    | (simp only [N, BUFSIZE]; omega)
    | (simp only [N, BUFSIZE]; split <;> simp <;> assumption)
    | simp_all

theorem sema_ctl_reachable {s : State} (h : Reachable s) : Ctl s := by
  induction h with
  | init => exact sema_ctl_init
  | step t _ hs ih =>
    cases t
    · exact sema_ctl_producer ih hs
    · exact sema_ctl_consumer ih hs

theorem sema_reachable_exec (sched : List Tid) {s : State} (h : Reachable s) :
    Reachable (exec sched s) := by
  induction sched generalizing s with
  | nil => exact h
  | cons t ts ih =>
    cases hs : step t s with
    | none => simpa [exec, hs] using ih h
    | some s' => simpa [exec, hs] using ih (Reachable.step t h hs)

set_option maxHeartbeats 4000000 in
/-- In a state that satisfies the control invariant and is not finished, the
producer or the consumer can execute its next statement. -/
theorem enabled_of_ctl {s : State} (h : Ctl s) (hn : ¬ finished s) :
    (producer s).isSome = true ∨ (consumer s).isSome = true := by
  have hpo := h.prod.order
  have hco := h.cons.order
  obtain ⟨buffer, bufin, bufout, empty, full, sc, lock, ⟨ppc, pi, pitem, pd, po, pp, pu⟩,
    ⟨cpc, ci, citem, cd, co, cp, cu⟩, out⟩ := s
  obtain ⟨⟨p1, p2, p3, p4, p5, p6, p7, p8⟩, ⟨c1, c2, c3, c4, c5, c6, c7, c8⟩, he, hf, hst, hlp, hlc, hvp, hvc⟩ := h
  simp only [N, BUFSIZE, finished] at *
  cases ppc <;> simp [producer] at hvp ⊢ <;> simp at p1 p2 p3 p4 p6 p7 p8 hlp hst hn <;>
    cases cpc <;> simp [consumer] at hvc hn ⊢ <;> simp at c1 c2 c3 c4 c6 c7 c8 hlc hst <;>
    first
      | omega
      | (subst_vars; simp_all; done)
      | (have hl : lock = none := by rcases lock with _ | (_ | _) <;> simp_all
         simp [hl])

set_option maxHeartbeats 1000000 in
/-- Every step consumes fuel, so no run is longer than `fuel test_prod_cons`. -/
theorem fuel_step {s s' : State} (t : Tid) (h : Ctl s) (hs : step t s = some s') :
    fuel s' < fuel s := by
  obtain ⟨buffer, bufin, bufout, empty, full, sc, lock, ⟨ppc, pi, pitem, pd, po, pp, pu⟩,
    ⟨cpc, ci, citem, cd, co, cp, cu⟩, out⟩ := s
  have p6 := h.prod.body
  have c6 := h.cons.body
  simp only [N] at *
  cases t
  · cases ppc <;> simp [step, producer] at hs <;> (first | subst hs | obtain ⟨hg, rfl⟩ := hs)
    all_goals (try simp at p6)
    all_goals simp [fuel, Thread.fuel, N]
    all_goals (try split)
    all_goals (try simp)
    all_goals omega
  · cases cpc <;> simp [step, consumer] at hs <;> (first | subst hs | obtain ⟨hg, rfl⟩ := hs)
    all_goals (try simp at c6)
    all_goals simp [fuel, Thread.fuel, N]
    all_goals (try split)
    all_goals (try simp)
    all_goals omega

/-- A step changes `enq` only by executing the producer's buffer write. -/
theorem enq_step {s s' : State} (t : Tid) (hs : step t s = some s') (he : enq s' ≠ enq s) :
    t = Tid.Producer ∧ s.prod.pc = PC.op := by
  obtain ⟨buffer, bufin, bufout, empty, full, sc, lock, ⟨ppc, pi, pitem, pd, po, pp, pu⟩,
    ⟨cpc, ci, citem, cd, co, cp, cu⟩, out⟩ := s
  cases t
  · cases ppc <;> simp [step, producer] at hs <;>
      (first | subst hs | obtain ⟨hg, rfl⟩ := hs) <;> simp [enq] at he ⊢
  · cases cpc <;> simp [step, consumer] at hs <;>
      (first | subst hs | obtain ⟨hg, rfl⟩ := hs) <;> simp [enq] at he ⊢

/-- A step changes `deq` only by executing the consumer's buffer read. -/
theorem deq_step {s s' : State} (t : Tid) (hs : step t s = some s') (he : deq s' ≠ deq s) :
    t = Tid.Consumer ∧ s.cons.pc = PC.op := by
  obtain ⟨buffer, bufin, bufout, empty, full, sc, lock, ⟨ppc, pi, pitem, pd, po, pp, pu⟩,
    ⟨cpc, ci, citem, cd, co, cp, cu⟩, out⟩ := s
  cases t
  · cases ppc <;> simp [step, producer] at hs <;>
      (first | subst hs | obtain ⟨hg, rfl⟩ := hs) <;> simp [deq] at he ⊢
  · cases cpc <;> simp [step, consumer] at hs <;>
      (first | subst hs | obtain ⟨hg, rfl⟩ := hs) <;> simp [deq] at he ⊢

/-- Bounds on completed writes and reads in terms of the control invariant. -/
theorem occupied_of_ctl {s : State} (h : Ctl s) :
    deq s ≤ enq s ∧ enq s ≤ deq s + BUFSIZE ∧
    (s.prod.pc = PC.op → enq s < deq s + BUFSIZE) ∧
    (s.cons.pc = PC.op → deq s < enq s) := by
  have hpo := h.prod.order
  have hco := h.cons.order
  have he := h.empty
  have hf := h.full
  have p1 := h.prod.downs; have p2 := h.prod.ops
  have c1 := h.cons.downs; have c2 := h.cons.ops
  simp only [enq, deq, BUFSIZE] at *
  refine ⟨by omega, by omega, ?_, ?_⟩
  · intro hp; rw [hp] at p1 p2; simp at p1 p2; omega
  · intro hp; rw [hp] at c1 c2; simp at c1 c2; omega

/-- C2: in every reachable state of prod-cons-sema.c the occupied count
(completed writes minus completed reads) lies in [0, 5]; the producer is at
its write `buffer[bufin] = item`, and a step performs that write, only in
states with occupied < 5; the consumer is at its read `item = buffer[bufout]`,
and a step performs that read, only in states with occupied > 0. -/
theorem no_overflow_underflow (s : State) (hr : Reachable s) :
    (0 ≤ occupied s ∧ occupied s ≤ 5) ∧
    (s.prod.pc = PC.op → occupied s < 5) ∧
    (s.cons.pc = PC.op → 0 < occupied s) ∧
    (∀ t s', step t s = some s' → enq s' ≠ enq s → occupied s < 5) ∧
    (∀ t s', step t s = some s' → deq s' ≠ deq s → 0 < occupied s) := by
  obtain ⟨h1, h2, h3, h4⟩ := occupied_of_ctl (sema_ctl_reachable hr)
  simp only [occupied, BUFSIZE] at *
  refine ⟨⟨by omega, by omega⟩, ?_, ?_, ?_, ?_⟩
  · intro hp; have := h3 hp; omega
  · intro hp; have := h4 hp; omega
  · intro t s' hs he; have := h3 (enq_step t hs he).2; omega
  · intro t s' hs he; have := h4 (deq_step t hs he).2; omega

theorem no_overflow_underflow_witness :
    Reachable (exec (alternate 1) test_prod_cons) ∧
    (exec (alternate 1) test_prod_cons).prod.pc = PC.loop ∧
    occupied (exec (alternate 1) test_prod_cons) = 1 ∧
    (0 ≤ occupied (exec (alternate 1) test_prod_cons) ∧
      occupied (exec (alternate 1) test_prod_cons) ≤ 5) :=
  ⟨sema_reachable_exec _ Reachable.init, by decide, by decide,
    (no_overflow_underflow _ (sema_reachable_exec _ Reachable.init)).1⟩

/-- C4: in every reachable state of prod-cons-sema.c in which the producer has
passed `sema_down(&start_consumer)`, and so in every state in which it has
completed a `sema_down(&empty)` or a buffer write, the consumer has already
executed its `sema_up(&start_consumer)`. -/
theorem consumer_starts_first (s : State) (hr : Reachable s) :
    (s.prod.pc ≠ PC.start → s.cons.pc ≠ PC.start) ∧
    (0 < s.prod.downs → s.cons.pc ≠ PC.start) ∧
    (0 < enq s → s.cons.pc ≠ PC.start) := by
  have h := sema_ctl_reachable hr
  have key : s.prod.pc ≠ PC.start → s.cons.pc ≠ PC.start := by
    intro hp hc
    have hst := h.start
    rw [hc] at hst
    cases hpc : s.prod.pc <;> simp [hpc] at hst hp
  refine ⟨key, ?_, ?_⟩
  · intro hd; apply key; intro hp
    have h1 := h.prod.downs; have h2 := h.prod.start hp
    rw [hp] at h1; simp at h1; omega
  · intro hd; apply key; intro hp
    have h1 := h.prod.ops; have h2 := h.prod.start hp
    rw [hp] at h1; simp [enq] at h1 hd; omega

theorem consumer_starts_first_witness :
    Reachable (exec (alternate 1) test_prod_cons) ∧
    0 < enq (exec (alternate 1) test_prod_cons) ∧
    (exec (alternate 1) test_prod_cons).cons.pc ≠ PC.start :=
  ⟨sema_reachable_exec _ Reachable.init, by decide,
    (consumer_starts_first _ (sema_reachable_exec _ Reachable.init)).2.2 (by decide)⟩

/-- C5: prod-cons-sema.c is deadlock-free and stops after exactly N = 10
iterations per task: in every reachable state in which a thread has not left
its loop some thread can execute a statement; every step lowers `fuel`, so
every run is finite; and in every reachable state in which both threads have
left their loops the producer has completed exactly 10 writes and the consumer
exactly 10 reads, each after 10 loop iterations. -/
theorem deadlock_free_and_terminates (s : State) (hr : Reachable s) :
    (¬ finished s → ∃ t s', step t s = some s') ∧
    (∀ t s', step t s = some s' → fuel s' < fuel s) ∧
    (finished s → enq s = 10 ∧ deq s = 10 ∧ s.prod.i = 10 ∧ s.cons.i = 10) := by
  have h := sema_ctl_reachable hr
  refine ⟨?_, fun t s' hs => fuel_step t h hs, ?_⟩
  · intro hn
    rcases enabled_of_ctl h hn with hp | hc
    · obtain ⟨s', hs'⟩ := Option.isSome_iff_exists.mp hp
      exact ⟨Tid.Producer, s', hs'⟩
    · obtain ⟨s', hs'⟩ := Option.isSome_iff_exists.mp hc
      exact ⟨Tid.Consumer, s', hs'⟩
  · rintro ⟨hp, hc⟩
    have h1 := h.prod.ops; have h2 := h.prod.fin hp
    have h3 := h.cons.ops; have h4 := h.cons.fin hc
    rw [hp] at h1; rw [hc] at h3
    simp [enq, deq, N] at *
    omega

set_option maxRecDepth 1000000 in
theorem deadlock_free_and_terminates_witness :
    Reachable (exec (alternate 13) test_prod_cons) ∧
    finished (exec (alternate 13) test_prod_cons) ∧
    enq (exec (alternate 13) test_prod_cons) = 10 ∧
    deq (exec (alternate 13) test_prod_cons) = 10 :=
  ⟨sema_reachable_exec _ Reachable.init, by decide,
    ((deadlock_free_and_terminates _ (sema_reachable_exec _ Reachable.init)).2.2 (by decide)).1,
    ((deadlock_free_and_terminates _ (sema_reachable_exec _ Reachable.init)).2.2 (by decide)).2.1⟩

end ProdConsSema

namespace ProdCons3

theorem mpmc_ctl_init : Ctl test_prod_cons := by
  constructor <;> first | decide | (constructor <;> decide) | (intro t; cases t <;> decide)

set_option maxHeartbeats 2000000 in
theorem ctl_p1 {s s' : State} (h : Ctl s) (hs : producer Tid.Producer1 s = some s') : Ctl s' := by
  obtain ⟨buffer, bufin, bufout, empty, full, lock, ⟨mpc, mi, mitem, md, mo, mp, mu⟩, c1, p2, c2, out⟩ := s
  obtain ⟨⟨m1, m2, m3, m4, m5, m6, m7, m8⟩, hc1, hp2, hc2, he, hf, hl, hbi, hbo⟩ := h
  have l1 := hl Tid.Producer1
  have l2 := hl Tid.Consumer1
  have l3 := hl Tid.Producer2
  have l4 := hl Tid.Consumer2
  clear hl
  simp only [N, BUFSIZE, State.thread] at *
  cases mpc <;> simp [producer, State.thread, State.setThread] at hs <;>
    (first | subst hs | obtain ⟨hg, rfl⟩ := hs) <;>
    simp at m1 m2 m3 m4 m6 m7 m8 l1 l2 l3 l4 hbi hbo <;>
    refine ⟨⟨?_, ?_, ?_, ?_, ?_, ?_, ?_, ?_⟩, hc1, hp2, hc2, ?_, ?_, ?_, ?_, ?_⟩
  all_goals (try simp)
  all_goals first
    | assumption
    | omega
    | (simp only [N, BUFSIZE]; omega)
    | (simp only [N, BUFSIZE]; split <;> simp <;> assumption)
    | (intro t; cases t <;> simp_all [State.thread] <;> split <;> simp)

set_option maxHeartbeats 2000000 in
theorem ctl_c1 {s s' : State} (h : Ctl s) (hs : consumer Tid.Consumer1 s = some s') : Ctl s' := by
  obtain ⟨buffer, bufin, bufout, empty, full, lock, p1, ⟨mpc, mi, mitem, md, mo, mp, mu⟩, p2, c2, out⟩ := s
  obtain ⟨hp1, ⟨m1, m2, m3, m4, m5, m6, m7, m8⟩, hp2, hc2, he, hf, hl, hbi, hbo⟩ := h
  have l1 := hl Tid.Producer1
  have l2 := hl Tid.Consumer1
  have l3 := hl Tid.Producer2
  have l4 := hl Tid.Consumer2
  clear hl
  simp only [N, BUFSIZE, State.thread] at *
  cases mpc <;> simp [consumer, State.thread, State.setThread] at hs <;>
    (first | subst hs | obtain ⟨hg, rfl⟩ := hs) <;>
    simp at m1 m2 m3 m4 m6 m7 m8 l1 l2 l3 l4 hbi hbo <;>
    refine ⟨hp1, ⟨?_, ?_, ?_, ?_, ?_, ?_, ?_, ?_⟩, hp2, hc2, ?_, ?_, ?_, ?_, ?_⟩
  all_goals (try simp)
  all_goals first
    | assumption
    | omega
    | (simp only [N, BUFSIZE]; omega)
    | (simp only [N, BUFSIZE]; split <;> simp <;> assumption)
    | (intro t; cases t <;> simp_all [State.thread] <;> split <;> simp)

set_option maxHeartbeats 2000000 in
theorem ctl_p2 {s s' : State} (h : Ctl s) (hs : producer Tid.Producer2 s = some s') : Ctl s' := by
  obtain ⟨buffer, bufin, bufout, empty, full, lock, p1, c1, ⟨mpc, mi, mitem, md, mo, mp, mu⟩, c2, out⟩ := s
  obtain ⟨hp1, hc1, ⟨m1, m2, m3, m4, m5, m6, m7, m8⟩, hc2, he, hf, hl, hbi, hbo⟩ := h
  have l1 := hl Tid.Producer1
  have l2 := hl Tid.Consumer1
  have l3 := hl Tid.Producer2
  have l4 := hl Tid.Consumer2
  clear hl
  simp only [N, BUFSIZE, State.thread] at *
  cases mpc <;> simp [producer, State.thread, State.setThread] at hs <;>
    (first | subst hs | obtain ⟨hg, rfl⟩ := hs) <;>
    simp at m1 m2 m3 m4 m6 m7 m8 l1 l2 l3 l4 hbi hbo <;>
    refine ⟨hp1, hc1, ⟨?_, ?_, ?_, ?_, ?_, ?_, ?_, ?_⟩, hc2, ?_, ?_, ?_, ?_, ?_⟩
  all_goals (try simp)
  all_goals first
    | assumption
    | omega
    | (simp only [N, BUFSIZE]; omega)
    | (simp only [N, BUFSIZE]; split <;> simp <;> assumption)
    | (intro t; cases t <;> simp_all [State.thread] <;> split <;> simp)

set_option maxHeartbeats 2000000 in
theorem ctl_c2 {s s' : State} (h : Ctl s) (hs : consumer Tid.Consumer2 s = some s') : Ctl s' := by
  obtain ⟨buffer, bufin, bufout, empty, full, lock, p1, c1, p2, ⟨mpc, mi, mitem, md, mo, mp, mu⟩, out⟩ := s
  obtain ⟨hp1, hc1, hp2, ⟨m1, m2, m3, m4, m5, m6, m7, m8⟩, he, hf, hl, hbi, hbo⟩ := h
  have l1 := hl Tid.Producer1
  have l2 := hl Tid.Consumer1
  have l3 := hl Tid.Producer2
  have l4 := hl Tid.Consumer2
  clear hl
  simp only [N, BUFSIZE, State.thread] at *
  cases mpc <;> simp [consumer, State.thread, State.setThread] at hs <;>
    (first | subst hs | obtain ⟨hg, rfl⟩ := hs) <;>
    simp at m1 m2 m3 m4 m6 m7 m8 l1 l2 l3 l4 hbi hbo <;>
    refine ⟨hp1, hc1, hp2, ⟨?_, ?_, ?_, ?_, ?_, ?_, ?_, ?_⟩, ?_, ?_, ?_, ?_, ?_⟩
  all_goals (try simp)
  all_goals first
    | assumption
    | omega
    | (simp only [N, BUFSIZE]; omega)
    | (simp only [N, BUFSIZE]; split <;> simp <;> assumption)
    | (intro t; cases t <;> simp_all [State.thread] <;> split <;> simp)

theorem mpmc_ctl_reachable {s : State} (h : Reachable s) : Ctl s := by
  induction h with
  | init => exact mpmc_ctl_init
  | step t _ hs ih =>
    cases t
    · exact ctl_p1 ih hs
    · exact ctl_c1 ih hs
    · exact ctl_p2 ih hs
    · exact ctl_c2 ih hs

theorem mpmc_reachable_exec (sched : List Tid) {s : State} (h : Reachable s) :
    Reachable (exec sched s) := by
  induction sched generalizing s with
  | nil => exact h
  | cons t ts ih =>
    cases hs : step t s with
    | none => simpa [exec, hs] using ih h
    | some s' => simpa [exec, hs] using ih (Reachable.step t h hs)

/-- A step that changes `bufin`, `bufout` or `buffer` is the buffer operation
or the index update of the stepping thread. -/
theorem update_step {s s' : State} (t : Tid) (hs : step t s = some s')
    (hu : s'.bufin ≠ s.bufin ∨ s'.bufout ≠ s.bufout ∨ s'.buffer ≠ s.buffer) :
    (s.thread t).pc = PC.op ∨ (s.thread t).pc = PC.adv := by
  obtain ⟨buffer, bufin, bufout, empty, full, lock, ⟨pc1, i1, it1, d1, o1, r1, u1⟩,
    ⟨pc2, i2, it2, d2, o2, r2, u2⟩, ⟨pc3, i3, it3, d3, o3, r3, u3⟩,
    ⟨pc4, i4, it4, d4, o4, r4, u4⟩, out⟩ := s
  cases t
  · cases pc1 <;> simp [step, producer, State.thread, State.setThread] at hs <;>
      (first | subst hs | obtain ⟨hg, rfl⟩ := hs) <;> simp [State.thread] at hu ⊢
  · cases pc2 <;> simp [step, consumer, State.thread, State.setThread] at hs <;>
      (first | subst hs | obtain ⟨hg, rfl⟩ := hs) <;> simp [State.thread] at hu ⊢
  · cases pc3 <;> simp [step, producer, State.thread, State.setThread] at hs <;>
      (first | subst hs | obtain ⟨hg, rfl⟩ := hs) <;> simp [State.thread] at hu ⊢
  · cases pc4 <;> simp [step, consumer, State.thread, State.setThread] at hs <;>
      (first | subst hs | obtain ⟨hg, rfl⟩ := hs) <;> simp [State.thread] at hu ⊢

/-- What the semaphores of prod-cons3.c do guarantee: the occupied count stays
in [-2, 3], and a producer is at its write only when occupied < 3. -/
theorem occupied_bounds (s : State) (hr : Reachable s) :
    -2 ≤ occupied s ∧ occupied s ≤ 3 ∧
    (s.p1.pc = PC.op → occupied s < 3) ∧ (s.p2.pc = PC.op → occupied s < 3) := by
  have h := mpmc_ctl_reachable hr
  have o1 := h.p1.order; have o2 := h.c1.order; have o3 := h.p2.order; have o4 := h.c2.order
  have he := h.empty; have hf := h.full
  have a1 := h.p1.downs; have a2 := h.p1.ops
  have b1 := h.p2.downs; have b2 := h.p2.ops
  simp only [occupied, enq, deq, BUFSIZE] at *
  refine ⟨by omega, by omega, ?_, ?_⟩
  · intro hp; rw [hp] at a1 a2; simp at a1 a2; omega
  · intro hp; rw [hp] at b1 b2; simp at b1 b2; omega

/-- C6 fails on the code: `test_prod_cons` sets `full` to 2 although the buffer
is empty, so "Consumer1" passes `i < N`, `sema_down(&full)` and `lock_acquire`
and then executes its read `item = buffer[bufout]` in a reachable state whose
occupied count is 0; after the read the occupied count is -1. -/
theorem consumer_reads_empty_buffer :
    Reachable (exec (List.replicate 3 Tid.Consumer1) test_prod_cons) ∧
    (exec (List.replicate 3 Tid.Consumer1) test_prod_cons).c1.pc = PC.op ∧
    occupied (exec (List.replicate 3 Tid.Consumer1) test_prod_cons) = 0 ∧
    (step Tid.Consumer1 (exec (List.replicate 3 Tid.Consumer1) test_prod_cons)).map deq
      = some 1 ∧
    (step Tid.Consumer1 (exec (List.replicate 3 Tid.Consumer1) test_prod_cons)).map occupied
      = some (-1) ∧
    Reachable (exec (List.replicate 4 Tid.Consumer1) test_prod_cons) ∧
    occupied (exec (List.replicate 4 Tid.Consumer1) test_prod_cons) = -1 :=
  ⟨mpmc_reachable_exec _ Reachable.init, by decide, by decide, by decide, by decide,
    mpmc_reachable_exec _ Reachable.init, by decide⟩

/-- C7: any two runs of prod-cons3.c that reach a state in which all four
threads have left their loops agree on the number of completed writes (100),
of completed reads (100) and on the final `bufin` and `bufout`
(both 100 mod 3 = 1). -/
theorem totals_deterministic (s₁ s₂ : State) (h₁ : Reachable s₁) (h₂ : Reachable s₂)
    (f₁ : finished s₁) (f₂ : finished s₂) :
    (enq s₁ = enq s₂ ∧ deq s₁ = deq s₂ ∧ s₁.bufin = s₂.bufin ∧ s₁.bufout = s₂.bufout) ∧
    (enq s₁ = 100 ∧ deq s₁ = 100 ∧ s₁.bufin = 1 ∧ s₁.bufout = 1) := by
  have key : ∀ s, Reachable s → finished s →
      enq s = 100 ∧ deq s = 100 ∧ s.bufin = 1 ∧ s.bufout = 1 := by
    intro s hr hf
    have h := mpmc_ctl_reachable hr
    obtain ⟨f1, f2, f3, f4⟩ := hf
    have a1 := h.p1.ops; have a2 := h.p1.fin f1
    have b1 := h.c1.ops; have b2 := h.c1.fin f2
    have c1 := h.p2.ops; have c2 := h.p2.fin f3
    have d1 := h.c2.ops; have d2 := h.c2.fin f4
    have hbi := h.bufin; have hbo := h.bufout
    rw [f1] at a1; rw [f2] at b1; rw [f3] at c1; rw [f4] at d1
    rw [f1, f3] at hbi; rw [f2, f4] at hbo
    simp [N, BUFSIZE, enq, deq] at *
    omega
  obtain ⟨e1, e2, e3, e4⟩ := key s₁ h₁ f₁
  obtain ⟨g1, g2, g3, g4⟩ := key s₂ h₂ f₂
  exact ⟨⟨by omega, by omega, by omega, by omega⟩, e1, e2, e3, e4⟩

set_option maxRecDepth 1000000 in
theorem totals_deterministic_witness :
    Reachable (exec scheduleA test_prod_cons) ∧
    Reachable (exec scheduleB test_prod_cons) ∧
    finished (exec scheduleA test_prod_cons) ∧
    finished (exec scheduleB test_prod_cons) ∧
    (exec scheduleA test_prod_cons).out
      ≠ (exec scheduleB test_prod_cons).out ∧
    enq (exec scheduleA test_prod_cons)
      = enq (exec scheduleB test_prod_cons) ∧
    (exec scheduleA test_prod_cons).bufin = 1 :=
  ⟨mpmc_reachable_exec _ Reachable.init, mpmc_reachable_exec _ Reachable.init, by decide, by decide,
    by decide,
    (totals_deterministic (exec scheduleA test_prod_cons) (exec scheduleB test_prod_cons)
      (mpmc_reachable_exec _ Reachable.init) (mpmc_reachable_exec _ Reachable.init)
      (by decide) (by decide)).1.1,
    (totals_deterministic (exec scheduleA test_prod_cons) (exec scheduleB test_prod_cons)
      (mpmc_reachable_exec _ Reachable.init) (mpmc_reachable_exec _ Reachable.init)
      (by decide) (by decide)).2.2.2.1⟩

/-- C8: in every reachable state of prod-cons3.c at most one of the four
threads is between its `lock_acquire(&buffer_lock)` and its
`lock_release(&buffer_lock)`, a thread is there exactly when it holds
`buffer_lock`, and every step that changes `bufin`, `bufout` or a buffer slot
is taken by the thread that holds `buffer_lock`. -/
theorem mutual_exclusion (s : State) (hr : Reachable s) :
    (∀ t u, (s.thread t).pc.inCS = true → (s.thread u).pc.inCS = true → t = u) ∧
    (∀ t, (s.thread t).pc.inCS = true ↔ s.buffer_lock = some t) ∧
    (∀ t, (s.thread t).pc = PC.op ∨ (s.thread t).pc = PC.adv → s.buffer_lock = some t) ∧
    (∀ t s', step t s = some s' →
      s'.bufin ≠ s.bufin ∨ s'.bufout ≠ s.bufout ∨ s'.buffer ≠ s.buffer →
      s.buffer_lock = some t) := by
  have h := mpmc_ctl_reachable hr
  have hop : ∀ t, (s.thread t).pc = PC.op ∨ (s.thread t).pc = PC.adv →
      s.buffer_lock = some t := by
    intro t ht
    apply (h.lock t).mp
    rcases ht with ht | ht <;> rw [ht] <;> rfl
  refine ⟨?_, h.lock, hop, ?_⟩
  · intro t u ht hu
    have e1 := (h.lock t).mp ht
    have e2 := (h.lock u).mp hu
    rw [e1] at e2
    exact Option.some.inj e2
  · intro t s' hs hu
    exact hop t (update_step t hs hu)

theorem mutual_exclusion_witness :
    Reachable (exec (List.replicate 4 Tid.Producer2) test_prod_cons) ∧
    (exec (List.replicate 4 Tid.Producer2) test_prod_cons).p2.pc = PC.op ∧
    (exec (List.replicate 4 Tid.Producer2) test_prod_cons).buffer_lock = some Tid.Producer2 :=
  ⟨mpmc_reachable_exec _ Reachable.init, by decide,
    (mutual_exclusion _ (mpmc_reachable_exec _ Reachable.init)).2.2.1 Tid.Producer2
      (Or.inl (by decide))⟩

end ProdCons3

